import Mathlib

/-!
Verification of the microplastic-detector pipeline against its specification.

The definitions below are a shallow embedding of the TypeScript source:

* the main page component (`processRoboflowResults`, `startDetection`,
  `startAnalysis`, `particlesToDisplay`, `analysisStats`, `escapeCsvField`,
  its React state updates as an explicit event/step relation);
* the `analyze-particles` API route (bracket extraction, `JSON.parse`,
  the merge producing `finalParticles`, the parse-failure fallback);
* `createAnnotatedImage`'s denormalisation arithmetic from `imageUtils.ts`.

JavaScript numbers are modelled as exact rationals (`ℚ`), strings as
`String`/`List Char`, `undefined`/`null` as `Option`, and JavaScript
truthiness tests are spelled out where the source relies on them
(`!x` on a number is `x == 0` or missing; on a string it is `s == ""` or
missing).  Fallible code returns `Option`/`Except`.
-/

namespace Microplastic

/-- A normalised bounding box as produced by `processRoboflowResults`:
centre coordinates and size relative to the image, confidence, class label. -/
structure BoundingBox where
  x : ℚ
  y : ℚ
  width : ℚ
  height : ℚ
  confidence : ℚ
  cls : String
deriving Repr, DecidableEq

/-- The per-particle analysis record (`ParticleAnalysis` in `types/index.ts`):
all fields optional, `none` standing for an absent (`undefined`) field. -/
structure ParticleAnalysis where
  shape : Option String := none
  color : Option String := none
  transparency : Option String := none
  error : Option String := none
  reason : Option String := none
deriving Repr, DecidableEq

/-- `AnalyzedParticle` from `types/index.ts`: a bounding box together with its
assigned index and a nullable analysis. -/
structure AnalyzedParticle where
  box : BoundingBox
  index : ℕ
  analysis : Option ParticleAnalysis
deriving Repr, DecidableEq

/-- One entry of the array parsed out of the model's response, as the merge
step in the API route reads it: a possibly missing / non-numeric `index`
property (`none` when `typeof item.index !== 'number'`) and a possibly
missing `analysis` property.  A `null`/falsy array entry is modelled as
`none : Option ParsedItem` at the use site. -/
structure ParsedItem where
  index : Option ℚ := none
  analysis : Option ParticleAnalysis := none
deriving Repr, DecidableEq

/-- The source maps over a list with the element's position
(`list.map((v, i) => ...)`); this helper is that combinator with an explicit
starting offset. -/
def mapWithIndex {α β : Type} (f : ℕ → α → β) : ℕ → List α → List β
  | _, [] => []
  | n, a :: as => f n a :: mapWithIndex f (n + 1) as

theorem mapWithIndex_length {α β : Type} (f : ℕ → α → β) :
    ∀ (n : ℕ) (l : List α), (mapWithIndex f n l).length = l.length
  | _, [] => rfl
  | n, _ :: as => by simp [mapWithIndex, mapWithIndex_length f (n + 1) as]

theorem mapWithIndex_get? {α β : Type} (f : ℕ → α → β) :
    ∀ (n : ℕ) (l : List α) (i : ℕ),
      (mapWithIndex f n l).get? i = (l.get? i).map (f (n + i))
  | _, [], _ => by simp [mapWithIndex]
  | n, a :: as, 0 => by simp [mapWithIndex]
  | n, a :: as, i + 1 => by
      simpa [mapWithIndex, Nat.add_assoc, Nat.add_comm 1 i]
        using mapWithIndex_get? f (n + 1) as i

theorem mem_mapWithIndex {α β : Type} (f : ℕ → α → β) (b : β) :
    ∀ (n : ℕ) (l : List α), b ∈ mapWithIndex f n l →
      ∃ i a, l.get? i = some a ∧ b = f (n + i) a
  | n, [], h => by simp [mapWithIndex] at h
  | n, a :: as, h => by
      rcases (List.mem_cons).1 h with h0 | h1
      · exact ⟨0, a, by simp, by simpa using h0⟩
      · obtain ⟨i, a', hget, hb⟩ := mem_mapWithIndex f b (n + 1) as h1
        exact ⟨i + 1, a', by simpa using hget, by
          simpa [Nat.add_assoc, Nat.add_comm 1 i] using hb⟩

/-- The predicate the API route's merge step uses to look an original index up
in the parsed array: `item && typeof item.index === 'number' && item.index
=== index`. -/
def itemMatchesIndex (item : Option ParsedItem) (index : ℕ) : Bool :=
  match item with
  | none => false
  | some it =>
    match it.index with
    | none => false
    | some n => n == (index : ℚ)

/-- The sentinel the merge step attaches when no parsed entry has the box's
index (note the trailing full stop, exactly as the route writes it). -/
def notAnalyzed : ParticleAnalysis :=
  { shape := some "Not Analyzed", color := some "Not Analyzed",
    transparency := some "Not Analyzed", error := none,
    reason := some "Index not found in AI response." }

/-- The merge step of the `analyze-particles` route (`finalParticles`): one
output per original box, in order, carrying the first matching parsed entry's
`analysis` or the `notAnalyzed` sentinel. -/
def finalParticles (boundingBoxes : List BoundingBox)
    (parsedAnalysis : List (Option ParsedItem)) : List AnalyzedParticle :=
  mapWithIndex
    (fun index originalBox =>
      match parsedAnalysis.find? (fun item => itemMatchesIndex item index) with
      | some (some it) => ⟨originalBox, index, it.analysis⟩
      | _ => ⟨originalBox, index, some notAnalyzed⟩)
    0 boundingBoxes

/-- The analysis value the merge step attaches at position `i`, on its own. -/
def mergeAnalysis (parsedAnalysis : List (Option ParsedItem)) (i : ℕ) :
    Option ParticleAnalysis :=
  match parsedAnalysis.find? (fun item => itemMatchesIndex item i) with
  | some (some it) => it.analysis
  | _ => some notAnalyzed

theorem finalParticles_get? (boundingBoxes : List BoundingBox)
    (parsedAnalysis : List (Option ParsedItem)) (i : ℕ) :
    (finalParticles boundingBoxes parsedAnalysis).get? i
      = (boundingBoxes.get? i).map
          (fun box => ⟨box, i, mergeAnalysis parsedAnalysis i⟩) := by
  rw [finalParticles, mapWithIndex_get?]
  cases boundingBoxes.get? i with
  | none => rfl
  | some box =>
      simp only [Option.map_some', Nat.zero_add, Option.some.injEq]
      unfold mergeAnalysis
      cases parsedAnalysis.find? (fun item => itemMatchesIndex item i) with
      | none => rfl
      | some o => cases o <;> rfl

/-- Spec-side lookup, written from the claim's words: the first parsed entry
(nulls skipped) whose numeric index equals `i`. -/
def firstEntryForIndex (parsedAnalysis : List (Option ParsedItem)) (i : ℕ) :
    Option ParsedItem :=
  (parsedAnalysis.filterMap id).find? (fun it => it.index == some (i : ℚ))

theorem find?_itemMatches_eq (i : ℕ) :
    ∀ parsedAnalysis : List (Option ParsedItem),
      parsedAnalysis.find? (fun item => itemMatchesIndex item i)
        = (firstEntryForIndex parsedAnalysis i).map some
  | [] => rfl
  | none :: tl => by
      simpa [List.find?, itemMatchesIndex, firstEntryForIndex]
        using find?_itemMatches_eq i tl
  | some it :: tl => by
      have hpred : itemMatchesIndex (some it) i = (it.index == some (i : ℚ)) := by
        cases h : it.index <;> simp [itemMatchesIndex, h]
      by_cases hm : (it.index == some (i : ℚ)) = true
      · simp [List.find?, hpred, hm, firstEntryForIndex]
      · have hm' : (it.index == some (i : ℚ)) = false := by
          simpa using hm
        simpa [List.find?, hpred, hm', firstEntryForIndex]
          using find?_itemMatches_eq i tl

/-- The sentinel exactly as claim C1 (and §4.4 of the spec) spells it: the
`reason` string has no trailing full stop. -/
def claimNotAnalyzed : ParticleAnalysis :=
  { shape := some "Not Analyzed", color := some "Not Analyzed",
    transparency := some "Not Analyzed", error := none,
    reason := some "Index not found in AI response" }

/-- A concrete normalised box used in several concrete evaluations (nothing
in the code restricts geometry or confidence to [0,1], so integral rationals
are legitimate and keep kernel evaluation cheap). -/
def exBox : BoundingBox := ⟨0, 0, 1, 1, 2, "particle"⟩

/-- A second concrete box, with a different geometry and confidence. -/
def exBox2 : BoundingBox := ⟨1, 1, 1, 1, 3, "particle"⟩

/-- C1: merge returns exactly one particle per original box, in order; each
position `i` carries the analysis of the first parsed entry whose numeric
index equals `i`, and otherwise the "Not Analyzed" sentinel — with the
sentinel's `reason` as the code writes it, ending in a full stop. -/
theorem merge_one_per_box :
    ∀ (boundingBoxes : List BoundingBox)
      (parsedAnalysis : List (Option ParsedItem)),
      (finalParticles boundingBoxes parsedAnalysis).length
          = boundingBoxes.length
        ∧ ∀ i box, boundingBoxes.get? i = some box →
            (finalParticles boundingBoxes parsedAnalysis).get? i
              = some ⟨box, i,
                  match firstEntryForIndex parsedAnalysis i with
                  | some it => it.analysis
                  | none => some notAnalyzed⟩ := by
  intro boundingBoxes parsedAnalysis
  constructor
  · exact mapWithIndex_length _ 0 boundingBoxes
  · intro i box hbox
    rw [finalParticles_get?, hbox]
    simp only [Option.map_some', Option.some.injEq]
    rw [mergeAnalysis, find?_itemMatches_eq i parsedAnalysis]
    cases hfe : firstEntryForIndex parsedAnalysis i with
    | none => simp
    | some it => simp

/-- C1 counterexample: on one box and an empty parsed list the merge attaches
the code's sentinel, whose `reason` string ends in a full stop, so it is not
the sentinel the claim states. -/
theorem merge_sentinel_counterexample :
    finalParticles [exBox] [] = [⟨exBox, 0, some notAnalyzed⟩]
      ∧ notAnalyzed ≠ claimNotAnalyzed := by
  constructor
  · rfl
  · decide

/-- C1 witness is not needed (the claim theorem's hypotheses sit inside the
conjunction), but this closed corollary exercises it at a concrete input:
two boxes, a parsed list whose only valid entry has index 1. -/
theorem merge_one_per_box_example :
    (finalParticles [exBox, exBox2]
        [none, some ⟨some 1, some ⟨some "Fiber", some "Blue", some "Opaque", none, none⟩⟩]).length = 2 := by
  exact (merge_one_per_box [exBox, exBox2]
    [none, some ⟨some 1, some ⟨some "Fiber", some "Blue", some "Opaque", none, none⟩⟩]).1

/-- The `boxesAboveThreshold` filter of `startDetection`: detections whose
confidence reaches the current threshold, in original order. -/
def boxesAboveThreshold (detectedBoxes : List BoundingBox)
    (confidenceThreshold : ℚ) : List BoundingBox :=
  detectedBoxes.filter (fun box => confidenceThreshold ≤ box.confidence)

/-- The `particlesToDisplay` memo of the page component: analysed particles
when any exist, otherwise the raw detections mapped to the particle shape
with their list position as index and a null analysis; finally filtered by
the confidence threshold. -/
def particlesToDisplay (analyzedParticles : List AnalyzedParticle)
    (boundingBoxes : List BoundingBox) (confidenceThreshold : ℚ) :
    List AnalyzedParticle :=
  let particles : List AnalyzedParticle :=
    if 0 < analyzedParticles.length then analyzedParticles
    else if 0 < boundingBoxes.length then
      mapWithIndex (fun index box => ⟨box, index, none⟩) 0 boundingBoxes
    else []
  particles.filter (fun p => confidenceThreshold ≤ p.box.confidence)

/-- C3 (amended): the index attached during analysis and reconciliation is
the particle's position among the boxes that passed the confidence threshold
at submission time; the pre-analysis display instead carries each kept box's
position in the full normalised detection list. -/
theorem index_assignment :
    ∀ (detectedBoxes : List BoundingBox) (t : ℚ)
      (parsedAnalysis : List (Option ParsedItem)),
      (∀ i p,
          (finalParticles (boxesAboveThreshold detectedBoxes t)
              parsedAnalysis).get? i = some p →
            p.index = i
              ∧ (boxesAboveThreshold detectedBoxes t).get? i = some p.box)
        ∧ ∀ p, p ∈ particlesToDisplay [] detectedBoxes t →
            detectedBoxes.get? p.index = some p.box ∧ p.analysis = none := by
  intro detectedBoxes t parsedAnalysis
  constructor
  · intro i p hp
    rw [finalParticles_get?] at hp
    cases hbox : (boxesAboveThreshold detectedBoxes t).get? i with
    | none => rw [hbox] at hp; simp at hp
    | some box =>
        rw [hbox] at hp
        simp only [Option.map_some', Option.some.injEq] at hp
        subst hp
        exact ⟨rfl, by simp [hbox]⟩
  · intro p hp
    have hp' : p ∈ mapWithIndex
        (fun index box => AnalyzedParticle.mk box index none) 0 detectedBoxes := by
      by_cases hlen : 0 < detectedBoxes.length
      · simpa [particlesToDisplay, hlen] using List.mem_of_mem_filter hp
      · simp [particlesToDisplay, hlen] at hp
    obtain ⟨i, a, hget, hpa⟩ :=
      mem_mapWithIndex (fun index box => AnalyzedParticle.mk box index none)
        p 0 detectedBoxes hp'
    subst hpa
    simpa using hget

/-- A box whose confidence (0) is below the counterexample's threshold (1)
and which precedes `exBox` in the detection list. -/
def lowBox : BoundingBox := ⟨0, 0, 1, 1, 0, "particle"⟩

/-- C3 counterexample: with detections `[lowBox, exBox]` and threshold 1,
the pre-analysis display shows `exBox` under index 1 (its position in the
full normalised list), while the analysis phase assigns it index 0 (its
position among the threshold-passing boxes) — the index is reassigned and
does not equal the position in the full normalised detection list. -/
theorem index_assignment_counterexample :
    (particlesToDisplay [] [lowBox, exBox] 1).map (fun p => p.index) = [1]
      ∧ (finalParticles (boxesAboveThreshold [lowBox, exBox] 1) []).map
          (fun p => p.index) = [0]
      ∧ (finalParticles (boxesAboveThreshold [lowBox, exBox] 1) []).map
          (fun p => p.box) = [exBox]
      ∧ [lowBox, exBox].get? 1 = some exBox := by
  refine ⟨?_, ?_, ?_, ?_⟩ <;> decide

/-- JavaScript truthiness of an optional string: `undefined` and `""` are
falsy, every other string is truthy. -/
def strTruthy : Option String → Bool
  | none => false
  | some s => !(s == "")

/-- The guard of the statistics loop, exactly as the component writes it:
`particle.analysis && !particle.analysis.error && particle.analysis.shape
!== 'Not Analyzed'`. -/
def contributes (p : AnalyzedParticle) : Bool :=
  match p.analysis with
  | none => false
  | some a => !(strTruthy a.error) && !(a.shape == some "Not Analyzed")

/-- The key used for the distribution maps: `analysis.shape || "Unknown"`
(JavaScript `||` takes the fallback on a falsy — absent or empty — string). -/
def keyOrUnknown (o : Option String) : String :=
  match o with
  | none => "Unknown"
  | some s => if s == "" then "Unknown" else s

/-- A JavaScript object used as a label→count map, with insertion order:
incrementing an existing key in place, appending a new key at the end. -/
def bump : List (String × ℕ) → String → List (String × ℕ)
  | [], k => [(k, 1)]
  | (k', n) :: rest, k =>
      if k' = k then (k', n + 1) :: rest else (k', n) :: bump rest k

/-- `AnalysisStats` from `types/index.ts`. -/
structure AnalysisStats where
  shapes : List (String × ℕ)
  colors : List (String × ℕ)
  transparency : List (String × ℕ)
  count : ℕ
  analyzedCount : ℕ
  hasStats : Bool
deriving Repr, DecidableEq

/-- The mutable accumulators of the statistics loop. -/
structure StatsAcc where
  shapes : List (String × ℕ)
  colors : List (String × ℕ)
  transparency : List (String × ℕ)
  analyzedCount : ℕ
deriving Repr, DecidableEq

/-- One iteration of the `particlesToDisplay.forEach` loop in the
`analysisStats` memo. -/
def statsStep (acc : StatsAcc) (p : AnalyzedParticle) : StatsAcc :=
  match p.analysis with
  | some a =>
      if !(strTruthy a.error) && !(a.shape == some "Not Analyzed") then
        ⟨bump acc.shapes (keyOrUnknown a.shape),
         bump acc.colors (keyOrUnknown a.color),
         bump acc.transparency (keyOrUnknown a.transparency),
         acc.analyzedCount + 1⟩
      else acc
  | none => acc

/-- The `analysisStats` memo: `null` on an empty displayed list, otherwise
the aggregated record with `hasStats = analyzedCount > 0`. -/
def analysisStats (ps : List AnalyzedParticle) : Option AnalysisStats :=
  if ps.length = 0 then none
  else
    let acc := ps.foldl statsStep ⟨[], [], [], 0⟩
    some ⟨acc.shapes, acc.colors, acc.transparency, ps.length,
      acc.analyzedCount, decide (0 < acc.analyzedCount)⟩

/-- The shape the loop reads off a contributing particle. -/
def analysisShape (p : AnalyzedParticle) : Option String :=
  match p.analysis with
  | some a => a.shape
  | none => none

/-- The colour the loop reads off a contributing particle. -/
def analysisColor (p : AnalyzedParticle) : Option String :=
  match p.analysis with
  | some a => a.color
  | none => none

/-- The transparency level the loop reads off a contributing particle. -/
def analysisTransparency (p : AnalyzedParticle) : Option String :=
  match p.analysis with
  | some a => a.transparency
  | none => none

theorem statsStep_eq (acc : StatsAcc) (p : AnalyzedParticle) :
    statsStep acc p
      = if contributes p then
          ⟨bump acc.shapes (keyOrUnknown (analysisShape p)),
           bump acc.colors (keyOrUnknown (analysisColor p)),
           bump acc.transparency (keyOrUnknown (analysisTransparency p)),
           acc.analyzedCount + 1⟩
        else acc := by
  cases h : p.analysis with
  | none => simp [statsStep, contributes, h]
  | some a =>
      by_cases hc : (!(strTruthy a.error) && !(a.shape == some "Not Analyzed")) = true
      · simp [statsStep, contributes, h, hc, analysisShape, analysisColor,
          analysisTransparency]
      · rw [Bool.not_eq_true] at hc
        simp [statsStep, contributes, h, hc]

theorem foldl_statsStep_analyzedCount :
    ∀ (ps : List AnalyzedParticle) (acc : StatsAcc),
      (ps.foldl statsStep acc).analyzedCount
        = acc.analyzedCount + (ps.filter contributes).length
  | [], acc => by simp
  | p :: ps, acc => by
      rw [List.foldl_cons, statsStep_eq]
      by_cases hc : contributes p = true
      · rw [if_pos hc]
        rw [foldl_statsStep_analyzedCount ps]
        simp only [List.filter_cons, hc, if_true, List.length_cons]
        omega
      · have hc' : contributes p = false := by simpa using hc
        rw [if_neg hc]
        rw [foldl_statsStep_analyzedCount ps]
        simp [List.filter_cons, hc']

theorem foldl_statsStep_of_none :
    ∀ (ps : List AnalyzedParticle) (acc : StatsAcc),
      (ps.filter contributes).length = 0 → ps.foldl statsStep acc = acc
  | [], acc, _ => rfl
  | p :: ps, acc, h => by
      have hc : contributes p = false := by
        by_contra hb
        rw [Bool.not_eq_false] at hb
        simp [List.filter_cons, hb] at h
      have hrest : (ps.filter contributes).length = 0 := by
        simpa [List.filter_cons, hc] using h
      rw [List.foldl_cons, statsStep_eq, if_neg (by simp [hc])]
      exact foldl_statsStep_of_none ps acc hrest

/-- Claim-side (amended) contribution predicate: analysis present, error
field absent or the empty string (JavaScript-falsy), shape not the
"Not Analyzed" sentinel. -/
def contributesSpec (p : AnalyzedParticle) : Prop :=
  ∃ a, p.analysis = some a ∧ (a.error = none ∨ a.error = some "")
    ∧ a.shape ≠ some "Not Analyzed"

theorem contributes_iff (p : AnalyzedParticle) :
    contributes p = true ↔ contributesSpec p := by
  cases h : p.analysis with
  | none => simp [contributes, contributesSpec, h]
  | some a =>
      cases he : a.error with
      | none => simp [contributes, contributesSpec, h, he, strTruthy]
      | some s =>
          by_cases hs : s = ""
          · subst hs
            simp [contributes, contributesSpec, h, he, strTruthy]
          · simp [contributes, contributesSpec, h, he, strTruthy, hs]

/-- C8 (amended): a particle is counted into the distributions exactly when
its analysis is present, its `error` field is JavaScript-falsy (absent or
empty), and its shape is not the "Not Analyzed" sentinel; `count` is the
displayed length, `analyzedCount` the number of contributing particles,
`hasStats` holds exactly when `analyzedCount > 0`, and with zero analysable
particles all three distribution maps are empty. -/
theorem computeStats_spec :
    ∀ ps : List AnalyzedParticle, ps ≠ [] →
      ∃ st, analysisStats ps = some st
        ∧ st.count = ps.length
        ∧ st.analyzedCount = (ps.filter contributes).length
        ∧ (∀ p, contributes p = true ↔ contributesSpec p)
        ∧ (st.hasStats = true ↔ 0 < st.analyzedCount)
        ∧ (st.analyzedCount = 0 →
            st.shapes = [] ∧ st.colors = [] ∧ st.transparency = []) := by
  intro ps hne
  have hlen : ¬ ps.length = 0 := by
    simpa [List.length_eq_zero] using hne
  have hcount := foldl_statsStep_analyzedCount ps ⟨[], [], [], 0⟩
  have hstats : analysisStats ps
      = some ⟨(ps.foldl statsStep ⟨[], [], [], 0⟩).shapes,
          (ps.foldl statsStep ⟨[], [], [], 0⟩).colors,
          (ps.foldl statsStep ⟨[], [], [], 0⟩).transparency, ps.length,
          (ps.foldl statsStep ⟨[], [], [], 0⟩).analyzedCount,
          decide (0 < (ps.foldl statsStep ⟨[], [], [], 0⟩).analyzedCount)⟩ := by
    rw [analysisStats, if_neg hlen]
  refine ⟨_, hstats, rfl, ?_, contributes_iff, ?_, ?_⟩
  · simpa using hcount
  · simp
  · intro hzero
    have hflen : (ps.filter contributes).length = 0 := by
      simp only at hzero
      omega
    have hfold := foldl_statsStep_of_none ps ⟨[], [], [], 0⟩ hflen
    simp only [hfold]
    exact ⟨trivial, trivial, trivial⟩

/-- A fully analysed particle used in the statistics witness. -/
def pFiber : AnalyzedParticle :=
  ⟨exBox, 0, some ⟨some "Fiber", some "Blue", some "Opaque", none, none⟩⟩

/-- C8 witness: `computeStats_spec` applied at the one-element list
`[pFiber]`, whose hypothesis is discharged by evaluation. -/
theorem computeStats_spec_witness :
    ∃ st, analysisStats [pFiber] = some st
      ∧ st.count = [pFiber].length
      ∧ st.analyzedCount = ([pFiber].filter contributes).length
      ∧ (∀ p, contributes p = true ↔ contributesSpec p)
      ∧ (st.hasStats = true ↔ 0 < st.analyzedCount)
      ∧ (st.analyzedCount = 0 →
          st.shapes = [] ∧ st.colors = [] ∧ st.transparency = []) :=
  computeStats_spec [pFiber] (by decide)

/-- An analysis whose `error` field is present but the empty string. -/
def emptyErrAnalysis : ParticleAnalysis :=
  ⟨some "Fiber", some "Blue", some "Opaque", some "", none⟩

/-- A displayed particle carrying `emptyErrAnalysis`. -/
def pEmptyErr : AnalyzedParticle := ⟨exBox, 0, some emptyErrAnalysis⟩

/-- C8 counterexample: a particle whose analysis HAS an `error` field (the
empty string) is nevertheless counted (`analyzedCount = 1`), because the
code tests JavaScript truthiness of `error`, not its presence — so the
claim's "has no error field" direction of the iff fails. -/
theorem computeStats_counterexample :
    (analysisStats [pEmptyErr]).map (fun st => st.analyzedCount) = some 1
      ∧ pEmptyErr.analysis = some emptyErrAnalysis
      ∧ emptyErrAnalysis.error = some ""
      ∧ (some "" : Option String) ≠ none := by
  refine ⟨by decide, rfl, rfl, by decide⟩

/-- C10: the statistics value is `null` exactly when the displayed particle
list is empty; in particular, when every particle and raw box falls below
the confidence threshold, consumers receive `null`, never a zero-count
record. -/
theorem stats_null_on_empty_display :
    ∀ (analyzedParticles : List AnalyzedParticle)
      (boundingBoxes : List BoundingBox) (t : ℚ),
      (analysisStats (particlesToDisplay analyzedParticles boundingBoxes t)
          = none
        ↔ particlesToDisplay analyzedParticles boundingBoxes t = [])
      ∧ ((∀ p ∈ analyzedParticles, p.box.confidence < t) →
          (∀ b ∈ boundingBoxes, b.confidence < t) →
          analysisStats (particlesToDisplay analyzedParticles boundingBoxes t)
            = none) := by
  intro analyzedParticles boundingBoxes t
  have hnone : ∀ ps : List AnalyzedParticle,
      analysisStats ps = none ↔ ps = [] := by
    intro ps
    rw [analysisStats]
    by_cases h : ps.length = 0
    · simp [h, List.length_eq_zero.mp h]
    · simp [h, show ps ≠ [] from fun he => h (by simp [he])]
  refine ⟨hnone _, ?_⟩
  intro hap hbb
  rw [hnone]
  rw [particlesToDisplay]
  refine List.filter_eq_nil_iff.mpr ?_
  intro p hp
  by_cases h1 : 0 < analyzedParticles.length
  · have hmem : p ∈ analyzedParticles := by simpa [h1] using hp
    simpa using not_le_of_lt (hap p hmem)
  · by_cases h2 : 0 < boundingBoxes.length
    · have hmem : p ∈ mapWithIndex
          (fun index box => AnalyzedParticle.mk box index none)
          0 boundingBoxes := by
        simpa [h1, h2] using hp
      obtain ⟨i, b, hget, hpb⟩ := mem_mapWithIndex _ p 0 boundingBoxes hmem
      subst hpb
      simpa using not_le_of_lt (hbb b (List.get?_mem hget))
    · simp [h1, h2] at hp

/-- The `image` object of the detector reply; a `none` field is a missing
property. -/
structure RoboflowImageDims where
  width : Option ℚ
  height : Option ℚ
deriving Repr, DecidableEq

/-- One raw prediction of the detector reply; a `none` field models a
missing or non-numeric property (the code checks `typeof ... === 'number'`
and `typeof ... === 'string'`). -/
structure RawPrediction where
  x : Option ℚ
  y : Option ℚ
  width : Option ℚ
  height : Option ℚ
  confidence : Option ℚ
  cls : Option String
deriving Repr, DecidableEq

/-- The detector reply as `processRoboflowResults` receives it. -/
structure RoboflowData where
  image : Option RoboflowImageDims
  predictions : Option (List RawPrediction)
deriving Repr, DecidableEq

/-- The per-prediction validation and normalisation inside the
`predictions.forEach` loop: a box only when every required field is present,
with centre and size divided by the image dimensions. -/
def validPrediction (pred : RawPrediction) (imgWidth imgHeight : ℚ) :
    Option BoundingBox :=
  match pred.x, pred.y, pred.width, pred.height, pred.confidence, pred.cls with
  | some px, some py, some pw, some ph, some pc, some pcls =>
      some ⟨px / imgWidth, py / imgHeight, pw / imgWidth, ph / imgHeight,
        pc, pcls⟩
  | _, _, _, _, _, _ => none

/-- `processRoboflowResults`: throws on a JavaScript-falsy image dimension
(missing or zero — note that a negative dimension is truthy and passes),
returns `[]` on missing predictions, and otherwise normalises the valid
predictions in order, silently skipping invalid ones. -/
def processRoboflowResults (roboflowData : RoboflowData) :
    Except String (List BoundingBox) :=
  match roboflowData.image with
  | none =>
      .error "Invalid detection data structure (missing image dimensions)."
  | some img =>
      match img.width, img.height with
      | some imgWidth, some imgHeight =>
          if imgWidth == 0 || imgHeight == 0 then
            .error "Invalid detection data structure (missing image dimensions)."
          else
            match roboflowData.predictions with
            | none => .ok []
            | some preds =>
                .ok (preds.filterMap
                  (fun pred => validPrediction pred imgWidth imgHeight))
      | _, _ =>
          .error "Invalid detection data structure (missing image dimensions)."

/-- The rectangle `createAnnotatedImage` (and the overlay renderer) draws for
a box at a given target size. -/
structure PixelRect where
  topLeftX : ℚ
  topLeftY : ℚ
  widthPx : ℚ
  heightPx : ℚ
deriving Repr, DecidableEq

/-- The denormalisation arithmetic of `createAnnotatedImage` in
`imageUtils.ts`: pixel size is relative size times target size, and the
top-left corner is the centre scaled to the target minus half the size. -/
def denormalize (box : BoundingBox) (imgWidth imgHeight : ℚ) : PixelRect :=
  let width := box.width * imgWidth
  let height := box.height * imgHeight
  let topLeftX := box.x * imgWidth - width / 2
  let topLeftY := box.y * imgHeight - height / 2
  ⟨topLeftX, topLeftY, width, height⟩

/-- Scenario A's raw detector reply: one prediction
`(x 100, y 50, w 40, h 20, conf 0.9, class "particle")` on a 200×100 image. -/
def scenarioAData : RoboflowData :=
  ⟨some ⟨some 200, some 100⟩,
   some [⟨some 100, some 50, some 40, some 20, some (9/10), some "particle"⟩]⟩

/-- The normalised box Scenario A produces. -/
def scenarioABox : BoundingBox := ⟨1/2, 1/2, 1/5, 1/5, 9/10, "particle"⟩

/-- C5 counterexample: Scenario A's box denormalised at 400×200 has top-left
corner (160, 80), not the (140, 70) the claim (spec Scenario A) states; the
pixel width 80 and height 40 do match. -/
theorem scenarioA_counterexample :
    processRoboflowResults scenarioAData = .ok [scenarioABox]
      ∧ denormalize scenarioABox 400 200 = ⟨160, 80, 80, 40⟩
      ∧ (denormalize scenarioABox 400 200).topLeftX ≠ 140
      ∧ (denormalize scenarioABox 400 200).topLeftY ≠ 70 := by
  refine ⟨?_, ?_, ?_, ?_⟩
  · show Except.ok _ = _
    norm_num [scenarioAData, validPrediction, scenarioABox, List.filterMap]
  · norm_num [denormalize, scenarioABox, PixelRect.mk.injEq]
  · norm_num [denormalize, scenarioABox]
  · norm_num [denormalize, scenarioABox]

/-- C5 (amended): Scenario A normalises exactly as claimed, and
denormalising at 400×200 yields pixel width 80 and height 40 with top-left
corner (160, 80). -/
theorem scenarioA_amended :
    processRoboflowResults scenarioAData = .ok [⟨1/2, 1/2, 1/5, 1/5, 9/10, "particle"⟩]
      ∧ denormalize ⟨1/2, 1/2, 1/5, 1/5, 9/10, "particle"⟩ 400 200
          = ⟨160, 80, 80, 40⟩ := by
  constructor
  · show Except.ok _ = _
    norm_num [scenarioAData, validPrediction, List.filterMap]
  · norm_num [denormalize, PixelRect.mk.injEq]

/-- Whether an `Except` result is the error case. -/
def resultIsError {α : Type} : Except String α → Bool
  | .error _ => true
  | .ok _ => false

/-- C6 (amended): `processRoboflowResults` fails with the invalid-data error
exactly when a dimension is JavaScript-falsy — missing or zero.  Negative
dimensions are truthy and are NOT rejected. -/
theorem dimension_check :
    ∀ d : RoboflowData,
      resultIsError (processRoboflowResults d) = true
        ↔ (d.image = none
            ∨ ∃ img, d.image = some img
                ∧ (img.width = none ∨ img.width = some 0
                    ∨ img.height = none ∨ img.height = some 0)) := by
  intro d
  cases d with
  | mk image predictions =>
      cases image with
      | none => simp [processRoboflowResults, resultIsError]
      | some img =>
          cases img with
          | mk w h =>
              cases w with
              | none => simp [processRoboflowResults, resultIsError]
              | some wv =>
                  cases h with
                  | none => simp [processRoboflowResults, resultIsError]
                  | some hv =>
                      by_cases hw : wv = 0
                      · subst hw
                        simp [processRoboflowResults, resultIsError]
                      · by_cases hh : hv = 0
                        · subst hh
                          simp [processRoboflowResults, resultIsError, hw]
                        · have hwb : (wv == (0 : ℚ)) = false := beq_false_of_ne hw
                          have hhb : (hv == (0 : ℚ)) = false := beq_false_of_ne hh
                          cases predictions with
                          | none =>
                              simp [processRoboflowResults, resultIsError,
                                hwb, hhb, hw, hh]
                          | some preds =>
                              simp [processRoboflowResults, resultIsError,
                                hwb, hhb, hw, hh]

/-- A detector reply whose image width is negative (−200). -/
def negDimData : RoboflowData :=
  ⟨some ⟨some (-200), some 100⟩,
   some [⟨some 100, some 50, some 40, some 20, some (9/10), some "particle"⟩]⟩

/-- C6 counterexample: a width of −200 is ≤ 0, yet `processRoboflowResults`
does not raise the invalid-data error — it happily normalises against the
negative dimension (producing a negative relative x and width). -/
theorem dimension_check_counterexample :
    processRoboflowResults negDimData
        = .ok [⟨-(1/2), 1/2, -(1/5), 1/5, 9/10, "particle"⟩]
      ∧ (-200 : ℚ) ≤ 0 := by
  constructor
  · show Except.ok _ = _
    norm_num [negDimData, validPrediction, List.filterMap]
  · norm_num

/-- The test `/[",\n]/.test(s)` of `escapeCsvField`: does the field contain
a double quote, a comma, or a newline? -/
def needsQuoting (s : List Char) : Bool :=
  s.any (fun c => c = '"' || c = ',' || c = '\n')

/-- The replacement `s.replace(/"/g, '""')`: every double quote doubled. -/
def replaceQuotes : List Char → List Char
  | [] => []
  | c :: cs =>
      if c = '"' then '"' :: '"' :: replaceQuotes cs else c :: replaceQuotes cs

/-- `escapeCsvField` from `handleExportCsv`: wrap in double quotes with
internal quotes doubled when the field needs quoting, else unchanged. -/
def escapeCsvField (s : List Char) : List Char :=
  if needsQuoting s then '"' :: (replaceQuotes s ++ ['"']) else s

/-- A CSV row as `handleExportCsv` assembles it:
`row.map(escapeCsvField).join(',')`. -/
def csvJoin : List (List Char) → List Char
  | [] => []
  | [f] => f
  | f :: fs => f ++ ',' :: csvJoin fs

/-- One emitted CSV line. -/
def csvLine (fields : List (List Char)) : List Char :=
  csvJoin (fields.map escapeCsvField)

/-- Claim-side description of quote doubling, written independently of
`replaceQuotes`: each character maps to itself, except a double quote which
maps to two. -/
def doubledSpec (s : List Char) : List Char :=
  s.flatMap (fun c => if c = '"' then ['"', '"'] else [c])

theorem replaceQuotes_eq_doubledSpec :
    ∀ s : List Char, replaceQuotes s = doubledSpec s
  | [] => rfl
  | c :: cs => by
      by_cases h : c = '"'
      · simp [replaceQuotes, doubledSpec, h,
          replaceQuotes_eq_doubledSpec cs]
      · simp only [replaceQuotes, if_neg h, doubledSpec, List.flatMap_cons,
          if_neg h]
        simpa [doubledSpec] using replaceQuotes_eq_doubledSpec cs

/-- C9: in the export every field containing a comma, double quote, or
newline is emitted wrapped in double quotes with each internal double quote
doubled, and every other field is emitted unchanged; the quoting test is
exactly "contains a comma, quote, or newline", and rows join the escaped
fields with commas. -/
theorem csv_field_escaping :
    ∀ s : List Char,
      (needsQuoting s = true ↔ ('"' ∈ s ∨ ',' ∈ s ∨ '\n' ∈ s))
        ∧ (needsQuoting s = false → escapeCsvField s = s)
        ∧ (needsQuoting s = true →
            escapeCsvField s = '"' :: (doubledSpec s ++ ['"']))
        ∧ ∀ fields : List (List Char),
            csvLine fields = csvJoin (fields.map escapeCsvField) := by
  intro s
  refine ⟨?_, ?_, ?_, fun _ => rfl⟩
  · constructor
    · intro h
      obtain ⟨c, hc, hp⟩ := List.any_eq_true.mp h
      simp only [Bool.or_eq_true, decide_eq_true_eq] at hp
      rcases hp with (hq | hcm) | hnl
      · exact Or.inl (hq ▸ hc)
      · exact Or.inr (Or.inl (hcm ▸ hc))
      · exact Or.inr (Or.inr (hnl ▸ hc))
    · intro h
      refine List.any_eq_true.mpr ?_
      rcases h with hq | hcm | hnl
      · exact ⟨'"', hq, by simp⟩
      · exact ⟨',', hcm, by simp⟩
      · exact ⟨'\n', hnl, by simp⟩
  · intro h
    simp [escapeCsvField, h]
  · intro h
    simp [escapeCsvField, h, replaceQuotes_eq_doubledSpec]

/-- C9 witness-style concrete checks: a field with an internal quote and
comma is wrapped and doubled; a plain field passes through unchanged. -/
theorem csv_field_escaping_example :
    escapeCsvField ('a' :: '"' :: 'b' :: ',' :: 'c' :: [])
        = ('"' :: 'a' :: '"' :: '"' :: 'b' :: ',' :: 'c' :: '"' :: [])
      ∧ escapeCsvField ('a' :: 'b' :: [])  = ('a' :: 'b' :: []) := by
  exact ⟨rfl, rfl⟩

/-- The React state of the page component relevant to the pipeline: the
normalised detections, the analysed particles, and the two busy flags. -/
structure AppState where
  boundingBoxes : List BoundingBox
  analyzedParticles : List AnalyzedParticle
  isDetecting : Bool
  isAnalyzing : Bool
deriving Repr, DecidableEq

/-- The asynchronous steps of the pipeline as they hit the shared React
state, read off `startDetection` and `startAnalysis`:

* `submitImage` — the synchronous prefix of `startDetection`: clears boxes
  and particles, sets the detecting flag;
* `detectionSucceeded` — `setBoundingBoxes(detectedBoxes)` followed by the
  hand-off into `startAnalysis` (detecting off, analysing on);
* `analysisSucceeded` — the resolution of `startAnalysis`'s fetch:
  `setAnalyzedParticles(analysisData.particles)`, unconditionally — the
  continuation carries no token identifying which run issued the call;
* `analysisFailed` — `startAnalysis`'s catch: clears the particles. -/
inductive UiEvent where
  | submitImage
  | detectionSucceeded (detectedBoxes : List BoundingBox)
  | analysisSucceeded (particles : List AnalyzedParticle)
  | analysisFailed (message : String)
deriving Repr, DecidableEq

/-- One state update, exactly as the corresponding handler writes the React
state. -/
def stepUi (s : AppState) : UiEvent → AppState
  | .submitImage => ⟨[], [], true, false⟩
  | .detectionSucceeded boxes =>
      { s with
          boundingBoxes := boxes
          isDetecting := false
          isAnalyzing := true }
  | .analysisSucceeded ps =>
      { s with analyzedParticles := ps, isAnalyzing := false }
  | .analysisFailed _ =>
      { s with analyzedParticles := [], isAnalyzing := false }

/-- A run of the event loop. -/
def runUi (s : AppState) (events : List UiEvent) : AppState :=
  events.foldl stepUi s

/-- The particle list the first image's characterization call eventually
returns. -/
def staleParticles : List AnalyzedParticle :=
  [⟨exBox, 0, some ⟨some "Fiber", some "Blue", some "Opaque", none, none⟩⟩]

/-- C2 (code bug): a second image is submitted while the first image's
characterization call is outstanding; when the first call resolves, its
result is written into the state of the second run — there is no generation
token anywhere in `startDetection`/`startAnalysis`, and
`setAnalyzedParticles` runs unconditionally, so the stale result is merged
rather than dropped. -/
theorem stale_analysis_merged :
    (runUi ⟨[], [], false, false⟩
        [UiEvent.submitImage,
         UiEvent.detectionSucceeded [exBox],
         UiEvent.submitImage,
         UiEvent.detectionSucceeded [exBox2],
         UiEvent.analysisSucceeded staleParticles]).analyzedParticles
      = staleParticles
    ∧ staleParticles ≠ [] := by
  exact ⟨rfl, by decide⟩

/-- Index of the first occurrence of a character (`String.indexOf`),
`none` when absent (the route checks for `-1`). -/
def firstIdx (c : Char) : List Char → Option ℕ
  | [] => none
  | a :: as => if a = c then some 0 else (firstIdx c as).map (· + 1)

/-- Index of the last occurrence of a character (`String.lastIndexOf`). -/
def lastIdx (c : Char) (s : List Char) : Option ℕ :=
  match firstIdx c s.reverse with
  | none => none
  | some i => some (s.length - 1 - i)

/-- The aggressive cleaning step of the route: take the substring from the
first `[` to the last `]` (inclusive), requiring the latter to come after
the former; `none` models the thrown "Valid JSON array structure not found"
error. -/
def extractArray (responseText : List Char) : Option (List Char) :=
  match firstIdx '[' responseText, lastIdx ']' responseText with
  | some startIndex, some endIndex =>
      if startIndex < endIndex then
        some ((responseText.drop startIndex).take (endIndex + 1 - startIndex))
      else none
  | _, _ => none

theorem firstIdx_lt_length (c : Char) :
    ∀ (s : List Char) (i : ℕ), firstIdx c s = some i → i < s.length
  | [], i => by simp [firstIdx]
  | a :: as, i => by
      intro hsome
      by_cases h : a = c
      · simp only [firstIdx, if_pos h, Option.some.injEq] at hsome
        simp only [List.length_cons]
        omega
      · simp only [firstIdx, if_neg h] at hsome
        cases hj : firstIdx c as with
        | none => rw [hj] at hsome; simp at hsome
        | some j =>
            have := firstIdx_lt_length c as j hj
            rw [hj] at hsome
            simp only [Option.map_some', Option.some.injEq] at hsome
            simp only [List.length_cons]
            omega

theorem firstIdx_append_of_not_mem (c : Char) :
    ∀ (p t : List Char), c ∉ p →
      firstIdx c (p ++ t) = (firstIdx c t).map (· + p.length)
  | [], t, _ => by
      cases h : firstIdx c t <;> simp [h]
  | a :: p, t, hmem => by
      have ha : ¬ a = c := fun h => hmem (h ▸ List.mem_cons_self a p)
      have hrest : c ∉ p := fun h => hmem (List.mem_cons_of_mem a h)
      rw [List.cons_append, firstIdx, if_neg ha,
        firstIdx_append_of_not_mem c p t hrest]
      cases h : firstIdx c t with
      | none => simp
      | some i =>
          simp only [Option.map_some', Option.some.injEq, List.length_cons]
          omega

theorem firstIdx_append_of_found (c : Char) :
    ∀ (t s : List Char) (i : ℕ), firstIdx c t = some i →
      firstIdx c (t ++ s) = some i
  | [], s, i, h => by simp [firstIdx] at h
  | a :: t, s, i, h => by
      by_cases ha : a = c
      · simp only [firstIdx, if_pos ha, Option.some.injEq] at h
        simp [firstIdx, ha, ← h]
      · simp only [firstIdx, if_neg ha] at h
        cases hj : firstIdx c t with
        | none => rw [hj] at h; simp at h
        | some j =>
            rw [hj] at h
            simp only [Option.map_some', Option.some.injEq] at h
            rw [List.cons_append, firstIdx, if_neg ha,
              firstIdx_append_of_found c t s j hj]
            simp [← h]

theorem lastIdx_lt_length (c : Char) (s : List Char) (j : ℕ)
    (h : lastIdx c s = some j) : j < s.length := by
  rw [lastIdx] at h
  cases hi : firstIdx c s.reverse with
  | none => rw [hi] at h; simp at h
  | some i =>
      rw [hi] at h
      have hlen : i < s.length := by
        simpa using firstIdx_lt_length c s.reverse i hi
      simp only [Option.some.injEq] at h
      omega

theorem lastIdx_wrap (p t s : List Char) (j : ℕ) (hs : ']' ∉ s)
    (ht : lastIdx ']' t = some j) :
    lastIdx ']' (p ++ t ++ s) = some (p.length + j) := by
  rw [lastIdx] at ht
  cases hi : firstIdx ']' t.reverse with
  | none => rw [hi] at ht; simp at ht
  | some i =>
      rw [hi] at ht
      simp only [Option.some.injEq] at ht
      have hilen : i < t.length := by
        simpa using firstIdx_lt_length ']' t.reverse i hi
      have hrev : (p ++ t ++ s).reverse = s.reverse ++ (t.reverse ++ p.reverse) := by
        simp
      have hsrev : ']' ∉ s.reverse := by simpa using hs
      have h1 : firstIdx ']' (t.reverse ++ p.reverse) = some i :=
        firstIdx_append_of_found ']' t.reverse p.reverse i hi
      have h2 : firstIdx ']' (s.reverse ++ (t.reverse ++ p.reverse))
          = some (i + s.reverse.length) := by
        rw [firstIdx_append_of_not_mem ']' s.reverse _ hsrev, h1]
        rfl
      rw [lastIdx, hrev, h2]
      simp only [Option.some.injEq, List.length_append, List.length_reverse]
      omega

theorem firstIdx_wrap (p t s : List Char) (i : ℕ) (hp : '[' ∉ p)
    (ht : firstIdx '[' t = some i) :
    firstIdx '[' (p ++ t ++ s) = some (p.length + i) := by
  have h1 : firstIdx '[' (t ++ s) = some i :=
    firstIdx_append_of_found '[' t s i ht
  rw [List.append_assoc, firstIdx_append_of_not_mem '[' p (t ++ s) hp, h1]
  simp [Nat.add_comm]

theorem extractArray_wrap (p t s r : List Char) (hp : '[' ∉ p)
    (hs : ']' ∉ s) (ht : extractArray t = some r) :
    extractArray (p ++ t ++ s) = some r := by
  rw [extractArray] at ht
  cases hst : firstIdx '[' t with
  | none => rw [hst] at ht; simp at ht
  | some st =>
      cases hen : lastIdx ']' t with
      | none => rw [hst, hen] at ht; simp at ht
      | some en =>
          rw [hst, hen] at ht
          dsimp only [] at ht
          by_cases hlt : st < en
          · rw [if_pos hlt] at ht
            simp only [Option.some.injEq] at ht
            have hstlen : st < t.length := by
              have := lastIdx_lt_length ']' t en hen
              omega
            have henlen : en < t.length := lastIdx_lt_length ']' t en hen
            rw [extractArray, firstIdx_wrap p t s st hp hst,
              lastIdx_wrap p t s en hs hen]
            dsimp only []
            rw [if_pos (by omega : p.length + st < p.length + en)]
            have hdrop : (p ++ t ++ s).drop (p.length + st)
                = t.drop st ++ s := by
              rw [List.append_assoc, List.drop_append, List.drop_append_of_le_length (by omega)]
            have htake : (t.drop st ++ s).take (en + 1 - st)
                = (t.drop st).take (en + 1 - st) := by
              refine List.take_append_of_le_length ?_
              rw [List.length_drop]
              omega
            rw [show p.length + en + 1 - (p.length + st) = en + 1 - st by omega,
              hdrop, htake, ht]
          · rw [if_neg hlt] at ht
            simp at ht

/-- A JSON value as `JSON.parse` returns it (numbers as exact rationals,
strings and keys as character lists). -/
inductive Json where
  | null : Json
  | boolean (b : Bool) : Json
  | num (q : ℚ) : Json
  | str (chars : List Char) : Json
  | arr (elements : List Json) : Json
  | obj (members : List (List Char × Json)) : Json
deriving Repr

/-- The opening brace character, written by code point. -/
def braceOpen : Char := '\x7b'

/-- The closing brace character, written by code point. -/
def braceClose : Char := '\x7d'

/-- Skip JSON whitespace. -/
def skipWs : List Char → List Char
  | [] => []
  | c :: cs =>
      if c = ' ' || c = '\n' || c = '\t' || c = '\r' then skipWs cs
      else c :: cs

/-- Decode a single-character escape sequence inside a JSON string. -/
def decodeEscape (e : Char) : Option Char :=
  if e = '"' then some '"'
  else if e = '\\' then some '\\'
  else if e = '/' then some '/'
  else if e = 'n' then some '\n'
  else if e = 't' then some '\t'
  else if e = 'r' then some '\r'
  else if e = 'b' then some (Char.ofNat 8)
  else if e = 'f' then some (Char.ofNat 12)
  else none

/-- Parse the body of a JSON string after the opening quote; returns the
decoded content and the remaining input after the closing quote. -/
def parseStringBody : List Char → Option (List Char × List Char)
  | [] => none
  | '"' :: cs => some ([], cs)
  | '\\' :: [] => none
  | '\\' :: e :: cs =>
      match decodeEscape e with
      | none => none
      | some ch =>
          match parseStringBody cs with
          | none => none
          | some (body, rest) => some (ch :: body, rest)
  | c :: cs =>
      match parseStringBody cs with
      | none => none
      | some (body, rest) => some (c :: body, rest)

/-- Accumulate a run of decimal digits: value, digit count, rest. -/
def parseDigitsAux : ℕ → ℕ → List Char → ℕ × ℕ × List Char
  | acc, n, [] => (acc, n, [])
  | acc, n, c :: cs =>
      if '0' ≤ c ∧ c ≤ '9' then
        parseDigitsAux (acc * 10 + (c.toNat - '0'.toNat)) (n + 1) cs
      else (acc, n, c :: cs)

/-- Parse a JSON number (optional minus, integer part, optional fraction;
exponents are outside the fragment the replies use). -/
def parseNumber (s : List Char) : Option (ℚ × List Char) :=
  let negAndRest : Bool × List Char :=
    match s with
    | '-' :: rest => (true, rest)
    | _ => (false, s)
  let d1 := parseDigitsAux 0 0 negAndRest.2
  if d1.2.1 = 0 then none
  else
    match d1.2.2 with
    | '.' :: s3 =>
        let d2 := parseDigitsAux 0 0 s3
        if d2.2.1 = 0 then none
        else
          let q : ℚ := (d1.1 : ℚ) + (d2.1 : ℚ) / ((10 : ℚ) ^ d2.2.1)
          some (if negAndRest.1 then -q else q, d2.2.2)
    | rest => some (if negAndRest.1 then -(d1.1 : ℚ) else (d1.1 : ℚ), rest)

/-- Drop an expected literal tail (such as `ull` after the `n` of `null`). -/
def stripChars : List Char → List Char → Option (List Char)
  | [], s => some s
  | _ :: _, [] => none
  | p :: ps, c :: cs => if c = p then stripChars ps cs else none

mutual

/-- Parse one JSON value (fuel-indexed recursion). -/
def parseValue : ℕ → List Char → Option (Json × List Char)
  | 0, _ => none
  | fuel + 1, s =>
      match skipWs s with
      | [] => none
      | c :: cs =>
          if c = '"' then
            match parseStringBody cs with
            | none => none
            | some (body, rest) => some (.str body, rest)
          else if c = '[' then parseArrayStart fuel cs
          else if c = braceOpen then parseObjectStart fuel cs
          else if c = 't' then
            match stripChars ['r', 'u', 'e'] cs with
            | none => none
            | some rest => some (.boolean true, rest)
          else if c = 'f' then
            match stripChars ['a', 'l', 's', 'e'] cs with
            | none => none
            | some rest => some (.boolean false, rest)
          else if c = 'n' then
            match stripChars ['u', 'l', 'l'] cs with
            | none => none
            | some rest => some (.null, rest)
          else
            match parseNumber (c :: cs) with
            | none => none
            | some (q, rest) => some (.num q, rest)

/-- Parse the contents of an array after its `[`. -/
def parseArrayStart : ℕ → List Char → Option (Json × List Char)
  | 0, _ => none
  | fuel + 1, s =>
      match skipWs s with
      | ']' :: rest => some (.arr [], rest)
      | s' =>
          match parseArrayItems fuel s' with
          | none => none
          | some (xs, rest) => some (.arr xs, rest)

/-- Parse one or more comma-separated array elements up to the closing
bracket. -/
def parseArrayItems : ℕ → List Char → Option (List Json × List Char)
  | 0, _ => none
  | fuel + 1, s =>
      match parseValue fuel s with
      | none => none
      | some (v, rest) =>
          match skipWs rest with
          | ',' :: rest' =>
              match parseArrayItems fuel rest' with
              | none => none
              | some (xs, r) => some (v :: xs, r)
          | ']' :: rest' => some ([v], rest')
          | _ => none

/-- Parse the contents of an object after its opening brace. -/
def parseObjectStart : ℕ → List Char → Option (Json × List Char)
  | 0, _ => none
  | fuel + 1, s =>
      match skipWs s with
      | c :: rest =>
          if c = braceClose then some (.obj [], rest)
          else
            match parseObjectMembers fuel (c :: rest) with
            | none => none
            | some (ms, r) => some (.obj ms, r)
      | [] => none

/-- Parse one or more comma-separated `"key": value` members up to the
closing brace. -/
def parseObjectMembers : ℕ → List Char → Option (List (List Char × Json) × List Char)
  | 0, _ => none
  | fuel + 1, s =>
      match skipWs s with
      | '"' :: cs =>
          match parseStringBody cs with
          | none => none
          | some (key, rest) =>
              match skipWs rest with
              | ':' :: rest' =>
                  match parseValue fuel rest' with
                  | none => none
                  | some (v, rest2) =>
                      match skipWs rest2 with
                      | ',' :: r =>
                          match parseObjectMembers fuel r with
                          | none => none
                          | some (ms, rr) => some ((key, v) :: ms, rr)
                      | c :: r =>
                          if c = braceClose then some ([(key, v)], r)
                          else none
                      | [] => none
              | _ => none
      | _ => none

end

/-- The model of `JSON.parse` on the reply fragment: parse one value and
require only whitespace after it. -/
def jsonParse (s : List Char) : Option Json :=
  match parseValue (3 * s.length + 3) s with
  | some (v, rest) => if skipWs rest = [] then some v else none
  | none => none

/-- The prose prefix of Scenario C's raw reply. -/
def scenarioCPre : List Char := "Sure! ```json\n".toList

/-- The bare JSON array of Scenario C. -/
def scenarioCBare : List Char :=
  "[\x7b\"index\":0,\"analysis\":\x7b\"shape\":\"Fiber\",\"color\":\"Blue\",\"transparency\":\"Opaque\"\x7d\x7d]".toList

/-- The closing fence of Scenario C's raw reply. -/
def scenarioCSuf : List Char := "\n```".toList

/-- Scenario C's full raw reply text. -/
def scenarioCText : List Char := scenarioCPre ++ scenarioCBare ++ scenarioCSuf

/-- The single entry Scenario C's array parses to: index 0 with the
Fiber/Blue/Opaque analysis. -/
def scenarioCEntry : Json :=
  .obj [("index".toList, .num 0),
        ("analysis".toList,
          .obj [("shape".toList, .str "Fiber".toList),
                ("color".toList, .str "Blue".toList),
                ("transparency".toList, .str "Opaque".toList)])]

/-- C7: wrapping a well-formed array text in prose and/or fence markers that
add no `[` before it and no `]` after it leaves the extracted substring —
and therefore the parsed array — unchanged; and Scenario C's fenced reply
parses to the one-element array whose entry has index 0. -/
theorem extraction_robustness :
    ∀ (p t s r : List Char), '[' ∉ p → ']' ∉ s → extractArray t = some r →
      extractArray (p ++ t ++ s) = some r
        ∧ (extractArray (p ++ t ++ s)).bind jsonParse
            = (extractArray t).bind jsonParse
        ∧ scenarioCText
            = "Sure! ```json\n[\x7b\"index\":0,\"analysis\":\x7b\"shape\":\"Fiber\",\"color\":\"Blue\",\"transparency\":\"Opaque\"\x7d\x7d]\n```".toList
        ∧ (extractArray scenarioCText).bind jsonParse
            = some (Json.arr [scenarioCEntry]) := by
  intro p t s r hp hs ht
  have hw := extractArray_wrap p t s r hp hs ht
  exact ⟨hw, by rw [hw, ht], rfl, rfl⟩

/-- C7 witness: the theorem applied to Scenario C's own decomposition into
prose prefix, bare array, and fence suffix. -/
theorem extraction_robustness_witness :
    extractArray (scenarioCPre ++ scenarioCBare ++ scenarioCSuf)
        = some scenarioCBare
      ∧ (extractArray (scenarioCPre ++ scenarioCBare ++ scenarioCSuf)).bind jsonParse
          = (extractArray scenarioCBare).bind jsonParse
      ∧ scenarioCText
          = "Sure! ```json\n[\x7b\"index\":0,\"analysis\":\x7b\"shape\":\"Fiber\",\"color\":\"Blue\",\"transparency\":\"Opaque\"\x7d\x7d]\n```".toList
      ∧ (extractArray scenarioCText).bind jsonParse
          = some (Json.arr [scenarioCEntry]) :=
  extraction_robustness scenarioCPre scenarioCBare scenarioCSuf scenarioCBare
    (by decide) (by decide) (by rfl)

/-- JavaScript truthiness of a JSON value (the `item &&` guard of the merge
lookup). -/
def jsTruthyJson : Json → Bool
  | .null => false
  | .boolean b => b
  | .num q => !(q == 0)
  | .str chars => !chars.isEmpty
  | .arr _ => true
  | .obj _ => true

/-- Property lookup on a parsed JSON object; later duplicate keys win, as
`JSON.parse` keeps the last occurrence. -/
def objLookup (members : List (List Char × Json)) (key : List Char) :
    Option Json :=
  match members.reverse.find? (fun kv => kv.1 == key) with
  | some kv => some kv.2
  | none => none

/-- Read an optional string-valued property off a JSON value. -/
def strProp (j : Json) (key : List Char) : Option String :=
  match j with
  | .obj members =>
      match objLookup members key with
      | some (.str chars) => some (String.mk chars)
      | _ => none
  | _ => none

/-- Read a numeric property (`typeof item.index === 'number'`). -/
def numProp (j : Json) (key : List Char) : Option ℚ :=
  match j with
  | .obj members =>
      match objLookup members key with
      | some (.num q) => some q
      | _ => none
  | _ => none

/-- Project a parsed entry's `analysis` property onto the analysis record
the client reads (string-valued fields only, anything else is absent). -/
def jsonToAnalysis (j : Json) : ParticleAnalysis :=
  ⟨strProp j "shape".toList, strProp j "color".toList,
   strProp j "transparency".toList, strProp j "error".toList,
   strProp j "reason".toList⟩

/-- Bridge one decoded array element to the merge step's view of it: `none`
for a falsy element, otherwise its numeric `index` (if any) and its
`analysis` object (if any). -/
def toParsedItem (j : Json) : Option ParsedItem :=
  if jsTruthyJson j then
    some ⟨numProp j "index".toList,
      (match j with
        | .obj members => objLookup members "analysis".toList
        | _ => none).map jsonToAnalysis⟩
  else none

/-- The route's parse stage after the model reply arrives: bracket
extraction, `JSON.parse`, and the array check; `none` collapses
NoArrayFound, MalformedJson and UnexpectedShape, exactly as the route's
single catch does. -/
def decodeAnalysisArray (responseText : List Char) : Option (List Json) :=
  match extractArray responseText with
  | none => none
  | some extracted =>
      match jsonParse extracted with
      | some (.arr xs) => some xs
      | _ => none

/-- The analysis attached by the route's parse-failure fallback. -/
def parseErrorAnalysis : ParticleAnalysis :=
  { shape := some "Parse Error", color := some "Parse Error",
    transparency := some "Parse Error",
    error := some "Could not parse AI analysis response.", reason := none }

/-- The fallback particle list of the route's catch: every original box,
in order, with the parse-error analysis. -/
def fallbackParticles (boundingBoxes : List BoundingBox) :
    List AnalyzedParticle :=
  mapWithIndex (fun index box => ⟨box, index, some parseErrorAnalysis⟩)
    0 boundingBoxes

/-- The two ways the route responds once the model reply is in hand. -/
inductive RouteOutcome where
  | fallback (errorMessage : String) (particles : List AnalyzedParticle)
  | success (particles : List AnalyzedParticle)
deriving Repr, DecidableEq

/-- The route's response as a function of the original boxes and the raw
reply text: a 200 fallback carrying parse-error particles when decoding
fails, otherwise the merged particles. -/
def analyzeRouteParse (boundingBoxes : List BoundingBox)
    (responseText : List Char) : RouteOutcome :=
  match decodeAnalysisArray responseText with
  | none =>
      .fallback "AI analysis completed, but response parsing failed."
        (fallbackParticles boundingBoxes)
  | some xs =>
      .success (finalParticles boundingBoxes (xs.map toParsedItem))

/-- What the client's `startAnalysis` observes of the analysis API call. -/
inductive AnalysisApiOutcome where
  | networkError (message : String)
  | nonJsonBody (status : ℕ)
  | httpError (status : ℕ) (message : Option String)
  | okBody (particles : Option (List AnalyzedParticle)) (error : Option String)
deriving Repr, DecidableEq

/-- The final `(analyzedParticles, analysisErrorState)` pair `startAnalysis`
leaves behind for each outcome: every catch branch clears the particle list
and records an error message; only a well-formed ok body stores particles. -/
def startAnalysisResult (outcome : AnalysisApiOutcome) :
    List AnalyzedParticle × Option String :=
  match outcome with
  | .networkError m => ([], some ("Analysis Error: " ++ m))
  | .nonJsonBody status =>
      ([], some ("Analysis Error: Analysis API non-JSON response (Status: "
        ++ toString status ++ ")"))
  | .httpError status m =>
      ([], some ("Analysis Error: "
        ++ (match m with
            | some msg => msg
            | none => "Analysis API failed: " ++ toString status)))
  | .okBody particles err =>
      match particles with
      | some ps => (ps, if strTruthy err then err else none)
      | none => ([], some "Analysis Error: Invalid data structure from analysis API.")

/-- C4 (amended): a characterization-phase parse failure
(NoArrayFound/MalformedJson/UnexpectedShape) never aborts the pipeline — the
route answers with one parse-error particle per original box, in order,
each carrying the "Parse Error" analysis; a client-side failure (network
error, non-JSON reply, HTTP error status, malformed body) instead clears
the analysed list and records an analysis error, after which the display
falls back to the raw detections with a null analysis — geometry stays
visible in both cases, but only the server-side parse failure attaches the
"Parse Error" sentinel. -/
theorem characterization_failure_handling :
    ∀ (boundingBoxes : List BoundingBox) (responseText : List Char)
      (outcome : AnalysisApiOutcome),
      (decodeAnalysisArray responseText = none →
          analyzeRouteParse boundingBoxes responseText
            = .fallback "AI analysis completed, but response parsing failed."
                (fallbackParticles boundingBoxes)
          ∧ (fallbackParticles boundingBoxes).length = boundingBoxes.length
          ∧ ∀ p ∈ fallbackParticles boundingBoxes,
              p.analysis = some parseErrorAnalysis)
        ∧ ((∀ ps err, outcome ≠ .okBody ps err) →
            (startAnalysisResult outcome).1 = []
              ∧ (startAnalysisResult outcome).2 ≠ none)
        ∧ ∀ t p, p ∈ particlesToDisplay [] boundingBoxes t →
            p.analysis = none := by
  intro boundingBoxes responseText outcome
  refine ⟨?_, ?_, ?_⟩
  · intro hdec
    refine ⟨by rw [analyzeRouteParse, hdec], mapWithIndex_length _ 0 _, ?_⟩
    intro p hp
    obtain ⟨i, b, _, hpb⟩ :=
      mem_mapWithIndex (fun index box =>
        AnalyzedParticle.mk box index (some parseErrorAnalysis)) p
        0 boundingBoxes hp
    rw [hpb]
  · intro hno
    cases outcome with
    | networkError m => exact ⟨rfl, by simp [startAnalysisResult]⟩
    | nonJsonBody status => exact ⟨rfl, by simp [startAnalysisResult]⟩
    | httpError status m => exact ⟨rfl, by simp [startAnalysisResult]⟩
    | okBody ps err => exact absurd rfl (hno ps err)
  · intro t p hp
    by_cases h2 : 0 < boundingBoxes.length
    · have hp' : p ∈ mapWithIndex
          (fun index box => AnalyzedParticle.mk box index none)
          0 boundingBoxes := by
        simpa [particlesToDisplay, h2] using List.mem_of_mem_filter hp
      obtain ⟨i, b, _, hpb⟩ := mem_mapWithIndex _ p 0 boundingBoxes hp'
      rw [hpb]
    · simp [particlesToDisplay, h2] at hp

/-- C4 witness: the theorem at one box, an unparseable reply (no brackets at
all), and a concrete network failure. -/
theorem characterization_failure_handling_witness :
    (decodeAnalysisArray ("no json here".toList) = none →
        analyzeRouteParse [exBox] ("no json here".toList)
          = .fallback "AI analysis completed, but response parsing failed."
              (fallbackParticles [exBox])
        ∧ (fallbackParticles [exBox]).length = [exBox].length
        ∧ ∀ p ∈ fallbackParticles [exBox],
            p.analysis = some parseErrorAnalysis)
      ∧ ((∀ ps err,
            AnalysisApiOutcome.networkError "Failed to fetch"
              ≠ .okBody ps err) →
          (startAnalysisResult (.networkError "Failed to fetch")).1 = []
            ∧ (startAnalysisResult (.networkError "Failed to fetch")).2 ≠ none)
      ∧ ∀ t p, p ∈ particlesToDisplay [] [exBox] t → p.analysis = none :=
  characterization_failure_handling [exBox] ("no json here".toList)
    (.networkError "Failed to fetch")

/-- C4 counterexample: a network error is a characterization-phase failure,
yet no box receives the "Parse Error" analysis — `startAnalysis` clears the
analysed list, and the displayed particle built from the surviving raw box
carries a null analysis, not the claimed `\x7bshape: "Parse Error", ...\x7d`
record. -/
theorem characterization_failure_counterexample :
    (startAnalysisResult (.networkError "Failed to fetch")).1 = []
      ∧ (particlesToDisplay [] [exBox] 0).map (fun p => p.analysis) = [none]
      ∧ (none : Option ParticleAnalysis) ≠ some parseErrorAnalysis := by
  exact ⟨rfl, by decide, by decide⟩

end Microplastic
